import Mathlib

/-!
Verification of the ep-engine task-scheduling, hash-table and background-fetch
subsystems against their natural-language specification.

The definitions below are shallow embeddings of the C++ sources:
`src/src/taskqueue.cc` (TaskQueue and the HashTable header),
`src/src/bgfetcher.cc` (BgFetcher) and the EventuallyPersistentEngine
wrappers in `src/unnamed/part_001`.  Machine times are modelled as `Nat`
instants, the intrusive priority queues as sorted lists, and concurrent
interference (CAS retry loops, concurrent resizes) as explicit schedules.
-/

namespace EpEngine

/-! ### Task model (GlobalTask, src/src/taskqueue.cc) -/

/-- task_state_t: TASK_RUNNING / TASK_SNOOZED / TASK_DEAD. -/
inductive TaskState where
  | running
  | snoozed
  | dead
deriving DecidableEq

/-- TaskId: only the ItemPager is distinguished by TaskQueue::_schedule
(`task->getTypeId() != TaskId::ItemPager`); every other task type is
represented by an index. -/
inductive TaskTypeId where
  | itemPager
  | otherTask (n : Nat)
deriving DecidableEq

/-- A GlobalTask as seen by the TaskQueue: id, type, queue priority (lower
value = higher priority, the source convention), waketime and state. -/
structure Task where
  tid : Nat
  typeId : TaskTypeId
  priority : Nat
  waketime : Nat
  state : TaskState
deriving DecidableEq

/-- GlobalTask::setState(to, expected): compare-and-swap on the task state;
returns whether the transition happened together with the updated task.
Modelled from the spec: the GlobalTask class is not under src/; the spec
records that scheduling a task already in the Dead state resets it to
Running, i.e. an atomic compare-exchange on the state field. -/
def Task.setState (t : Task) (tgt : TaskState) (expected : TaskState) : Bool × Task :=
  if t.state = expected then (true, { t with state := tgt }) else (false, t)

/-- GlobalTask::isdead. -/
def Task.isdead (t : Task) : Bool := t.state = TaskState.dead

/-! ### The three sub-queues (src/src/taskqueue.cc)

`readyQueue` and `futureQueue` are std::priority_queue instances whose
comparators live in taskqueue.h / futurequeue.h, which are not under src/.
They are modelled from the spec: the readyQueue is ordered so that higher
priority pops first with FIFO order among equal priorities, and the
futureQueue is ordered by waketime, earliest first.  Both are modelled as
sorted lists with a stable insertion. -/

/-- Stable insertion into the readyQueue: a task goes behind every task of
equal or higher (numerically lower) priority, keeping FIFO order among
equal priorities. -/
def readyInsert (t : Task) : List Task → List Task
  | [] => [t]
  | x :: xs => if t.priority < x.priority then t :: x :: xs else x :: readyInsert t xs

/-- Stable insertion into the futureQueue, ordered by waketime. -/
def futureInsert (t : Task) : List Task → List Task
  | [] => [t]
  | x :: xs => if t.waketime < x.waketime then t :: x :: xs else x :: futureInsert t xs

/-- The three sub-queues of one TaskQueue.  The head of `readyQueue` and of
`futureQueue` is the `top()` of the corresponding priority queue; the
`pendingQueue` is a plain std::list. -/
structure TaskQueue where
  readyQueue : List Task
  futureQueue : List Task
  pendingQueue : List Task
deriving DecidableEq

def TaskQueue.empty : TaskQueue := ⟨[], [], []⟩

/-- TaskQueue::_schedule (src/src/taskqueue.cc:204-245).  A Dead task is
reset to Running by `setState(TASK_RUNNING, TASK_DEAD)`; when that reset
happened and the task is not the ItemPager, a std::logic_error is thrown
before anything is enqueued (MB-23797); otherwise the task is pushed onto
the futureQueue.  Returns the queue together with the (possibly reset)
task. -/
def TaskQueue.schedule (q : TaskQueue) (task : Task) : Except String (TaskQueue × Task) :=
  let r := task.setState TaskState.running TaskState.dead
  let changed := r.1
  let task1 := r.2
  if changed = true ∧ task1.typeId ≠ TaskTypeId.itemPager then
    Except.error "Unexpected task was scheduled while DEAD"
  else
    Except.ok ({ q with futureQueue := futureInsert task1 q.futureQueue }, task1)

/-- C1: scheduling a task that is in the Dead state resets its state to
Running; if that reset occurred and the task's type is not ItemPager the
schedule raises a logic error without enqueuing; for the ItemPager the
reset is tolerated and the task is pushed onto the futureQueue. -/
theorem schedule_dead_task (q : TaskQueue) (t : Task)
    (hdead : t.state = TaskState.dead) :
    (t.typeId = TaskTypeId.itemPager →
      q.schedule t =
        Except.ok
          ({ q with futureQueue :=
              futureInsert { t with state := TaskState.running } q.futureQueue },
            { t with state := TaskState.running })) ∧
    (t.typeId ≠ TaskTypeId.itemPager →
      q.schedule t = Except.error "Unexpected task was scheduled while DEAD") := by
  constructor <;> intro h <;>
    simp [TaskQueue.schedule, Task.setState, hdead, h]

/-- Witness for C1: a concrete dead ItemPager is re-enqueued with state
Running, and a concrete dead non-ItemPager task raises the logic error. -/
theorem schedule_dead_task_witness :
    TaskQueue.empty.schedule ⟨1, TaskTypeId.itemPager, 0, 5, TaskState.dead⟩ =
      Except.ok (⟨[], [⟨1, TaskTypeId.itemPager, 0, 5, TaskState.running⟩], []⟩,
        ⟨1, TaskTypeId.itemPager, 0, 5, TaskState.running⟩) ∧
    TaskQueue.empty.schedule ⟨2, TaskTypeId.otherTask 3, 0, 5, TaskState.dead⟩ =
      Except.error "Unexpected task was scheduled while DEAD" :=
  ⟨(schedule_dead_task TaskQueue.empty ⟨1, TaskTypeId.itemPager, 0, 5, TaskState.dead⟩
      rfl).1 rfl,
   (schedule_dead_task TaskQueue.empty ⟨2, TaskTypeId.otherTask 3, 0, 5, TaskState.dead⟩
      rfl).2 (by decide)⟩

/-! ### Fetching tasks (src/src/taskqueue.cc) -/

/-- TaskQueue::_doWake_UNLOCKED (src/src/taskqueue.cc:66-77): given the
sleeper count and the number of threads to wake, returns the number of
condition-variable signals actually issued (a notify_all reaches every
sleeper) together with the remaining numToWake. -/
def doWakeSignals (sleepers numToWake : Nat) : Nat × Nat :=
  if sleepers ≠ 0 ∧ numToWake ≠ 0 then
    if numToWake < sleepers then (numToWake, 0) else (sleepers, numToWake - sleepers)
  else (0, numToWake)

/-- Loop body of TaskQueue::_moveReadyTasks (src/src/taskqueue.cc:165-174):
pops futureQueue entries whose waketime ≤ tv into the readyQueue, counting
them, and breaks at the first entry that is not yet due. -/
def moveLoop (tv : Nat) : List Task → List Task → Nat → List Task × List Task × Nat
  | [], ready, n => ([], ready, n)
  | t :: fs, ready, n =>
      if t.waketime ≤ tv then moveLoop tv fs (readyInsert t ready) (n + 1)
      else (t :: fs, ready, n)

/-- TaskQueue::_moveReadyTasks (src/src/taskqueue.cc:159-180): a no-op
returning 0 when the readyQueue is non-empty; otherwise the bulk move, with
`numReady ? numReady - 1 : 0` threads to wake (the current thread pops one
task itself). -/
def TaskQueue.moveReadyTasks (q : TaskQueue) (tv : Nat) : TaskQueue × Nat :=
  match q.readyQueue with
  | _ :: _ => (q, 0)
  | [] =>
      let r := moveLoop tv q.futureQueue [] 0
      ({ q with futureQueue := r.1, readyQueue := r.2.1 },
        if r.2.2 = 0 then 0 else r.2.2 - 1)

/-- TaskQueue::_checkPendingQueue (src/src/taskqueue.cc:182-189): when the
pendingQueue is non-empty, its front entry is pushed into the readyQueue
(sorted by priority) and removed from the pendingQueue. -/
def TaskQueue.checkPendingQueue (q : TaskQueue) : TaskQueue :=
  match q.pendingQueue with
  | [] => q
  | t :: ps => { q with readyQueue := readyInsert t q.readyQueue, pendingQueue := ps }

/-- TaskQueue::_popReadyTask (src/src/taskqueue.cc:54-59): pops and returns
the top of the readyQueue (never called on an empty queue). -/
def TaskQueue.popReadyTask (q : TaskQueue) : TaskQueue × Option Task :=
  match q.readyQueue with
  | [] => (q, none)
  | t :: rest => ({ q with readyQueue := rest }, some t)

/-- TaskQueue::_fetchNextTask (src/src/taskqueue.cc:116-151) with the
optional sleep step elided (`toSleep = false`) and the executor thread's
current time passed as `tv`.  Returns the queue, the popped task (if any)
and the numToWake value handed to _doWake_UNLOCKED. -/
def TaskQueue.fetchNextTask (q : TaskQueue) (tv : Nat) : TaskQueue × Option Task × Nat :=
  let m := q.moveReadyTasks tv
  let q1 := m.1
  let numToWake := m.2
  match q1.readyQueue with
  | t :: rest =>
      if t.isdead then ({ q1 with readyQueue := rest }, some t, numToWake)
      else
        let r := q1.checkPendingQueue.popReadyTask
        (r.1, r.2, numToWake)
  | [] =>
      match q1.pendingQueue with
      | _ :: _ =>
          let r := q1.checkPendingQueue.popReadyTask
          (r.1, r.2, numToWake)
      | [] => (q1, none, if numToWake = 0 then 0 else numToWake - 1)

/-! ### Waking a task (src/src/taskqueue.cc:252-299) -/

/-- Effect of TaskQueue::_wake on the shared task object, as seen by every
queue entry holding the same task id: `futureQueue.updateWaketime(task, now)`
sets the waketime to now (the FutureTaskQueue class is not under src/;
modelled from the spec, which records the effect as `waketime := now`), and
`task->setState(TASK_RUNNING, TASK_SNOOZED)` is the Snoozed-to-Running
compare-and-swap. -/
def wakeAlias (taskId now : Nat) (t : Task) : Task :=
  if t.tid = taskId then
    let t1 : Task := { t with waketime := now }
    if t1.state = TaskState.snoozed then { t1 with state := TaskState.running } else t1
  else t

/-- TaskQueue::_wake (src/src/taskqueue.cc:252-299): pendingQueue entries
with the woken task's id, and dead pendingQueue entries, are erased into the
`notReady` queue; the task's waketime is set to now and its Snoozed state
reset to Running; then (MB-18453) every collected entry is pushed only onto
the futureQueue, counting in readyCount (which starts at 1) those already
due or dead.  Since the queues store shared pointers, every queue entry with
the task's id observes the field updates, which is modelled by mapping
`wakeAlias` over the queues.  Returns the queue and readyCount, the wake-up
request handed to _doWake_UNLOCKED. -/
def TaskQueue.wake (q : TaskQueue) (taskId now : Nat) : TaskQueue × Nat :=
  let notReady := (q.pendingQueue.filter (fun t => t.tid == taskId || t.isdead)).map
      (wakeAlias taskId now)
  let pending1 := q.pendingQueue.filter (fun t => !(t.tid == taskId || t.isdead))
  let future1 := (q.futureQueue.map (wakeAlias taskId now)).foldl
      (fun acc t => futureInsert t acc) []
  let readyCount := 1 + (notReady.filter (fun t => t.waketime ≤ now || t.isdead)).length
  let future2 := notReady.foldl (fun acc t => futureInsert t acc) future1
  ({ readyQueue := q.readyQueue.map (wakeAlias taskId now),
     futureQueue := future2, pendingQueue := pending1 }, readyCount)

/-! ### Helper lemmas about the sorted insertions -/

theorem futureInsert_perm (t : Task) (l : List Task) :
    List.Perm (futureInsert t l) (t :: l) := by
  induction l with
  | nil => exact List.Perm.refl _
  | cons x xs ih =>
      rw [futureInsert]
      split
      · exact List.Perm.refl _
      · exact (ih.cons x).trans (List.Perm.swap t x xs)

theorem foldl_futureInsert_perm (ts acc : List Task) :
    List.Perm (ts.foldl (fun a t => futureInsert t a) acc) (ts ++ acc) := by
  induction ts generalizing acc with
  | nil => exact List.Perm.refl _
  | cons x xs ih =>
      simp only [List.foldl_cons]
      have h1 := ih (futureInsert x acc)
      have h2 : List.Perm (xs ++ futureInsert x acc) (xs ++ (x :: acc)) :=
        List.Perm.append_left xs (futureInsert_perm x acc)
      exact (h1.trans h2).trans List.perm_middle

theorem readyInsert_perm (t : Task) (l : List Task) :
    List.Perm (readyInsert t l) (t :: l) := by
  induction l with
  | nil => exact List.Perm.refl _
  | cons x xs ih =>
      rw [readyInsert]
      split
      · exact List.Perm.refl _
      · exact (ih.cons x).trans (List.Perm.swap t x xs)

theorem wakeAlias_waketime (taskId now : Nat) (u : Task)
    (h : (wakeAlias taskId now u).tid = taskId) :
    (wakeAlias taskId now u).waketime = now := by
  by_cases hu : u.tid = taskId
  · simp only [wakeAlias, hu, if_true]
    split <;> rfl
  · rw [wakeAlias, if_neg hu] at h
    exact absurd h hu

/-- C2 counterexample: waking a task that sits on the pendingQueue does not
move it to the readyQueue (which stays empty); per MB-18453 the entry is
pushed only onto the futureQueue, with its waketime set to now. -/
theorem wake_counterexample :
    TaskQueue.wake ⟨[], [], [⟨7, TaskTypeId.otherTask 0, 3, 50, TaskState.snoozed⟩]⟩ 7 3 =
      (⟨[], [⟨7, TaskTypeId.otherTask 0, 3, 3, TaskState.running⟩], []⟩, 2) := by
  decide

/-- C2 (amended): TaskQueue::_wake sets the waketime of every queue entry
holding the woken task to now, moves the pendingQueue entries carrying the
task's id, and the dead pendingQueue entries, onto the futureQueue
(MB-18453) while no task enters or leaves the readyQueue, and signals the
queue's sleeper group with 1 plus the number of moved entries that are
already due or dead. -/
theorem wake_spec (q : TaskQueue) (taskId now : Nat) :
    ((q.wake taskId now).1.readyQueue = q.readyQueue.map (wakeAlias taskId now)) ∧
    (∀ t ∈ (q.wake taskId now).1.pendingQueue, t.tid ≠ taskId ∧ t.isdead = false) ∧
    (∀ t ∈ (q.wake taskId now).1.futureQueue, t.tid = taskId → t.waketime = now) ∧
    List.Perm (q.wake taskId now).1.futureQueue
      ((q.pendingQueue.filter (fun t => t.tid == taskId || t.isdead) ++ q.futureQueue).map
        (wakeAlias taskId now)) ∧
    (q.wake taskId now).2 =
      1 + (((q.pendingQueue.filter (fun t => t.tid == taskId || t.isdead)).map
        (wakeAlias taskId now)).filter (fun t => t.waketime ≤ now || t.isdead)).length := by
  have hperm : List.Perm (q.wake taskId now).1.futureQueue
      ((q.pendingQueue.filter (fun t => t.tid == taskId || t.isdead) ++ q.futureQueue).map
        (wakeAlias taskId now)) := by
    show List.Perm (List.foldl (fun acc t => futureInsert t acc)
        (List.foldl (fun acc t => futureInsert t acc) []
          (q.futureQueue.map (wakeAlias taskId now)))
        ((q.pendingQueue.filter (fun t => t.tid == taskId || t.isdead)).map
          (wakeAlias taskId now))) _
    have h1 := foldl_futureInsert_perm
      ((q.pendingQueue.filter (fun t => t.tid == taskId || t.isdead)).map
        (wakeAlias taskId now))
      (List.foldl (fun acc t => futureInsert t acc) []
        (q.futureQueue.map (wakeAlias taskId now)))
    have h2 := foldl_futureInsert_perm (q.futureQueue.map (wakeAlias taskId now)) []
    rw [List.append_nil] at h2
    have h3 := List.Perm.append_left
      ((q.pendingQueue.filter (fun t => t.tid == taskId || t.isdead)).map
        (wakeAlias taskId now)) h2
    rw [List.map_append]
    exact (h1.trans h3)
  refine ⟨rfl, ?_, ?_, hperm, rfl⟩
  · intro t ht
    have := List.of_mem_filter ht
    simp only [Bool.not_eq_true', Bool.or_eq_false_iff, beq_eq_false_iff_ne] at this
    exact this
  · intro t ht htid
    have hmem := hperm.mem_iff.mp ht
    rcases List.mem_map.mp hmem with ⟨u, _, hu⟩
    exact hu ▸ wakeAlias_waketime taskId now u (hu ▸ htid)

/-- Witness for C2 (amended): in the concrete wake of task 7 at time 3 the
resulting futureQueue entry carrying id 7 has waketime 3. -/
theorem wake_spec_witness :
    (⟨7, TaskTypeId.otherTask 0, 3, 3, TaskState.running⟩ : Task).waketime = 3 :=
  (wake_spec ⟨[], [], [⟨7, TaskTypeId.otherTask 0, 3, 50, TaskState.snoozed⟩]⟩ 7 3).2.2.1
    ⟨7, TaskTypeId.otherTask 0, 3, 3, TaskState.running⟩ (by decide) rfl

/-! ### The bulk move of due future tasks (claim C3) -/

/-- Boolean form of the loop guard `tid->getWaketime() <= tv`. -/
def isDue (tv : Nat) (t : Task) : Bool := decide (t.waketime ≤ tv)

/-- The futureQueue invariant: entries ordered by waketime (the
CompareByDueDate ordering, modelled from the spec). -/
def sortedByWaketime (l : List Task) : Prop :=
  List.Pairwise (fun a b => a.waketime ≤ b.waketime) l

instance (l : List Task) : Decidable (sortedByWaketime l) :=
  inferInstanceAs (Decidable (List.Pairwise _ l))

theorem foldl_readyInsert_perm (ts acc : List Task) :
    List.Perm (ts.foldl (fun a t => readyInsert t a) acc) (ts ++ acc) := by
  induction ts generalizing acc with
  | nil => exact List.Perm.refl _
  | cons x xs ih =>
      simp only [List.foldl_cons]
      have h1 := ih (readyInsert x acc)
      have h2 : List.Perm (xs ++ readyInsert x acc) (xs ++ (x :: acc)) :=
        List.Perm.append_left xs (readyInsert_perm x acc)
      exact (h1.trans h2).trans List.perm_middle

theorem moveLoop_eq (tv : Nat) (fs : List Task) (ready : List Task) (n : Nat) :
    moveLoop tv fs ready n =
      (fs.dropWhile (isDue tv),
       (fs.takeWhile (isDue tv)).foldl (fun a t => readyInsert t a) ready,
       n + (fs.takeWhile (isDue tv)).length) := by
  induction fs generalizing ready n with
  | nil => simp [moveLoop]
  | cons x xs ih =>
      rw [moveLoop]
      by_cases hx : x.waketime ≤ tv
      · rw [if_pos hx, ih]
        have hb : isDue tv x = true := decide_eq_true hx
        simp only [List.takeWhile_cons, List.dropWhile_cons, hb, if_true,
          List.foldl_cons, List.length_cons, Prod.mk.injEq]
        refine ⟨trivial, trivial, ?_⟩
        omega
      · rw [if_neg hx]
        have hb : isDue tv x = false := decide_eq_false hx
        simp [List.takeWhile_cons, List.dropWhile_cons, hb]

theorem pairwise_waketime_dropWhile (tv : Nat) (l : List Task)
    (hs : sortedByWaketime l) :
    ∀ t ∈ l.dropWhile (isDue tv), ¬ t.waketime ≤ tv := by
  induction l with
  | nil => intro t ht; simp [List.dropWhile] at ht
  | cons x xs ih =>
      rcases List.pairwise_cons.mp hs with ⟨hx, hxs⟩
      by_cases hdue : x.waketime ≤ tv
      · have hb : isDue tv x = true := decide_eq_true hdue
        intro t ht
        rw [List.dropWhile_cons, if_pos hb] at ht
        exact ih hxs t ht
      · have hb : isDue tv x = false := decide_eq_false hdue
        intro t ht
        rw [List.dropWhile_cons, if_neg (by simp [hb])] at ht
        rcases List.mem_cons.mp ht with h | h
        · exact h ▸ hdue
        · have := hx t h
          omega

/-- C3 counterexample: when the readyQueue is non-empty at the start of a
fetch, _moveReadyTasks is a no-op, so a futureQueue entry that is already
due (waketime 0 ≤ now = 10) stays on the futureQueue instead of being
moved to the readyQueue. -/
theorem fetch_no_bulk_move_counterexample :
    TaskQueue.fetchNextTask
        ⟨[⟨1, TaskTypeId.otherTask 0, 1, 0, TaskState.running⟩],
         [⟨2, TaskTypeId.otherTask 0, 1, 0, TaskState.running⟩], []⟩ 10 =
      (⟨[], [⟨2, TaskTypeId.otherTask 0, 1, 0, TaskState.running⟩], []⟩,
        some ⟨1, TaskTypeId.otherTask 0, 1, 0, TaskState.running⟩, 0) ∧
    (⟨2, TaskTypeId.otherTask 0, 1, 0, TaskState.running⟩ : Task).waketime ≤ 10 := by
  decide

/-- C3 (amended): _moveReadyTasks is a no-op returning 0 when the readyQueue
is non-empty; when it is empty, every futureQueue entry whose waketime ≤ now
is moved to the readyQueue in one bulk move (given the futureQueue waketime
ordering, no due entry remains), the pendingQueue is untouched, and the
requested number of wake-ups is N - 1 when N entries became ready (the
calling thread takes one task itself). -/
theorem moveReadyTasks_spec (q : TaskQueue) (tv : Nat) :
    (q.readyQueue ≠ [] → q.moveReadyTasks tv = (q, 0)) ∧
    (q.readyQueue = [] →
      ((q.moveReadyTasks tv).1.futureQueue = q.futureQueue.dropWhile (isDue tv) ∧
       (q.moveReadyTasks tv).1.pendingQueue = q.pendingQueue ∧
       List.Perm (q.moveReadyTasks tv).1.readyQueue (q.futureQueue.takeWhile (isDue tv)) ∧
       (q.moveReadyTasks tv).2 = (q.futureQueue.takeWhile (isDue tv)).length - 1 ∧
       (sortedByWaketime q.futureQueue →
         ∀ t ∈ (q.moveReadyTasks tv).1.futureQueue, ¬ t.waketime ≤ tv))) := by
  constructor
  · intro hne
    cases hq : q.readyQueue with
    | nil => exact absurd hq hne
    | cons r rs => simp [TaskQueue.moveReadyTasks, hq]
  · intro hq
    have hunfold : q.moveReadyTasks tv =
        (⟨(q.futureQueue.takeWhile (isDue tv)).foldl (fun a t => readyInsert t a) [],
          q.futureQueue.dropWhile (isDue tv), q.pendingQueue⟩,
          if (q.futureQueue.takeWhile (isDue tv)).length = 0 then 0
          else (q.futureQueue.takeWhile (isDue tv)).length - 1) := by
      simp [TaskQueue.moveReadyTasks, hq, moveLoop_eq]
    refine ⟨by rw [hunfold], by rw [hunfold], ?_, ?_, ?_⟩
    · rw [hunfold]
      have := foldl_readyInsert_perm (q.futureQueue.takeWhile (isDue tv)) []
      rwa [List.append_nil] at this
    · rw [hunfold]
      split
      · omega
      · rfl
    · intro hs t ht
      rw [hunfold] at ht
      exact pairwise_waketime_dropWhile tv q.futureQueue hs t ht

/-- Witness for C3 (amended): with an empty readyQueue and futureQueue
entries at waketimes 2 and 9, a fetch at time 3 leaves exactly the
waketime-9 entry on the futureQueue, and that entry is not due. -/
theorem moveReadyTasks_spec_witness :
    (TaskQueue.moveReadyTasks
        ⟨[], [⟨1, TaskTypeId.otherTask 0, 1, 2, TaskState.running⟩,
              ⟨2, TaskTypeId.otherTask 0, 1, 9, TaskState.running⟩], []⟩ 3).1.futureQueue =
      [⟨2, TaskTypeId.otherTask 0, 1, 9, TaskState.running⟩] ∧
    ¬ (⟨2, TaskTypeId.otherTask 0, 1, 9, TaskState.running⟩ : Task).waketime ≤ 3 := by
  have h := (moveReadyTasks_spec
    ⟨[], [⟨1, TaskTypeId.otherTask 0, 1, 2, TaskState.running⟩,
          ⟨2, TaskTypeId.otherTask 0, 1, 9, TaskState.running⟩], []⟩ 3).2 rfl
  refine ⟨h.1.trans (by decide), ?_⟩
  refine h.2.2.2.2 (by decide) _ ?_
  rw [h.1]
  decide

/-! ### Dead-task cleanup and pendingQueue promotion in a fetch (claim C5) -/

theorem moveReadyTasks_pending (q : TaskQueue) (tv : Nat) :
    (q.moveReadyTasks tv).1.pendingQueue = q.pendingQueue := by
  cases hq : q.readyQueue with
  | nil => simp [TaskQueue.moveReadyTasks, hq]
  | cons r rs => simp [TaskQueue.moveReadyTasks, hq]

theorem checkPendingQueue_nil (q : TaskQueue) (h : q.pendingQueue = []) :
    q.checkPendingQueue = q := by
  simp [TaskQueue.checkPendingQueue, h]

theorem checkPendingQueue_cons (q : TaskQueue) (p : Task) (ps : List Task)
    (h : q.pendingQueue = p :: ps) :
    q.checkPendingQueue = ⟨readyInsert p q.readyQueue, q.futureQueue, ps⟩ := by
  simp [TaskQueue.checkPendingQueue, h]

theorem popReadyTask_cons (q : TaskQueue) (u : Task) (us : List Task)
    (h : q.readyQueue = u :: us) :
    q.popReadyTask = (⟨us, q.futureQueue, q.pendingQueue⟩, some u) := by
  simp [TaskQueue.popReadyTask, h]

/-- C5 counterexample: with a non-empty readyQueue and an empty pendingQueue,
a fetch pops and returns the ready task while promoting no pendingQueue
entry at all (the pendingQueue is empty before and after), refuting the
claim that exactly one pendingQueue entry is promoted whenever the
readyQueue or the pendingQueue is non-empty. -/
theorem fetch_promotion_counterexample :
    TaskQueue.fetchNextTask
        ⟨[⟨1, TaskTypeId.otherTask 0, 1, 0, TaskState.running⟩], [], []⟩ 0 =
      (⟨[], [], []⟩, some ⟨1, TaskTypeId.otherTask 0, 1, 0, TaskState.running⟩, 0) := by
  decide

/-- C5 (amended): in a fetch, when the top of the (post-move) readyQueue is
dead it is popped and returned with no pendingQueue promotion; otherwise,
when the readyQueue or the pendingQueue is non-empty, at most one
pendingQueue entry is promoted — the front entry, exactly when the
pendingQueue is non-empty, inserted into the readyQueue preserving priority
order — and then the top of the readyQueue is popped and returned. -/
theorem fetch_cases (q : TaskQueue) (tv : Nat) :
    (∀ t rest, (q.moveReadyTasks tv).1.readyQueue = t :: rest → t.isdead = true →
      q.fetchNextTask tv =
        (⟨rest, (q.moveReadyTasks tv).1.futureQueue, q.pendingQueue⟩, some t,
          (q.moveReadyTasks tv).2)) ∧
    (∀ t rest, (q.moveReadyTasks tv).1.readyQueue = t :: rest → t.isdead = false →
      q.fetchNextTask tv =
        ((q.moveReadyTasks tv).1.checkPendingQueue.popReadyTask.1,
         (q.moveReadyTasks tv).1.checkPendingQueue.popReadyTask.2,
         (q.moveReadyTasks tv).2)) ∧
    ((q.moveReadyTasks tv).1.readyQueue = [] → q.pendingQueue ≠ [] →
      q.fetchNextTask tv =
        ((q.moveReadyTasks tv).1.checkPendingQueue.popReadyTask.1,
         (q.moveReadyTasks tv).1.checkPendingQueue.popReadyTask.2,
         (q.moveReadyTasks tv).2)) ∧
    ((q.moveReadyTasks tv).1.checkPendingQueue.pendingQueue = q.pendingQueue.drop 1) ∧
    (∀ p ps, q.pendingQueue = p :: ps →
      List.Perm (q.moveReadyTasks tv).1.checkPendingQueue.readyQueue
        (p :: (q.moveReadyTasks tv).1.readyQueue)) ∧
    (q.pendingQueue = [] →
      (q.moveReadyTasks tv).1.checkPendingQueue = (q.moveReadyTasks tv).1) := by
  refine ⟨?_, ?_, ?_, ?_, ?_, ?_⟩
  · intro t rest hready hdead
    simp [TaskQueue.fetchNextTask, hready, hdead, moveReadyTasks_pending]
  · intro t rest hready hdead
    simp [TaskQueue.fetchNextTask, hready, hdead]
  · intro hready hpend
    cases hp : q.pendingQueue with
    | nil => exact absurd hp hpend
    | cons p ps =>
        simp [TaskQueue.fetchNextTask, hready, moveReadyTasks_pending, hp]
  · cases hp : q.pendingQueue with
    | nil =>
        rw [checkPendingQueue_nil _ (by rw [moveReadyTasks_pending, hp]),
          moveReadyTasks_pending, hp]
        rfl
    | cons p ps =>
        rw [checkPendingQueue_cons _ p ps (by rw [moveReadyTasks_pending, hp])]
        simp [hp]
  · intro p ps hp
    rw [checkPendingQueue_cons _ p ps (by rw [moveReadyTasks_pending, hp])]
    exact readyInsert_perm p _
  · intro hp
    exact checkPendingQueue_nil _ (by rw [moveReadyTasks_pending, hp])

/-- Witness for C5 (amended): a dead task at the top of the readyQueue is
popped and returned for cleanup while the pendingQueue entry stays where it
is (no promotion). -/
theorem fetch_cases_witness :
    TaskQueue.fetchNextTask
        ⟨[⟨9, TaskTypeId.otherTask 0, 1, 0, TaskState.dead⟩], [],
         [⟨4, TaskTypeId.otherTask 0, 2, 0, TaskState.running⟩]⟩ 5 =
      (⟨[], [], [⟨4, TaskTypeId.otherTask 0, 2, 0, TaskState.running⟩]⟩,
        some ⟨9, TaskTypeId.otherTask 0, 1, 0, TaskState.dead⟩, 0) :=
  ((fetch_cases ⟨[⟨9, TaskTypeId.otherTask 0, 1, 0, TaskState.dead⟩], [],
      [⟨4, TaskTypeId.otherTask 0, 2, 0, TaskState.running⟩]⟩ 5).1
    ⟨9, TaskTypeId.otherTask 0, 1, 0, TaskState.dead⟩ [] rfl rfl).trans (by decide)

/-! ### Waketime and priority ordering of fetched tasks (claim C4) -/

/-- The readyQueue invariant: entries ordered by queue priority, the
CompareByPriority ordering (modelled from the spec; lower value = higher
priority). -/
def sortedByPriority (l : List Task) : Prop :=
  List.Pairwise (fun a b => a.priority ≤ b.priority) l

instance (l : List Task) : Decidable (sortedByPriority l) :=
  inferInstanceAs (Decidable (List.Pairwise _ l))

theorem readyInsert_pairwise (t : Task) (l : List Task) (hl : sortedByPriority l) :
    sortedByPriority (readyInsert t l) := by
  induction l with
  | nil => simp [readyInsert, sortedByPriority]
  | cons x xs ih =>
      rcases List.pairwise_cons.mp hl with ⟨hx, hxs⟩
      rw [readyInsert]
      by_cases hlt : t.priority < x.priority
      · rw [if_pos hlt]
        refine List.pairwise_cons.mpr ⟨?_, hl⟩
        intro b hb
        rcases List.mem_cons.mp hb with h | h
        · rw [h]; omega
        · have := hx b h; omega
      · rw [if_neg hlt]
        refine List.pairwise_cons.mpr ⟨?_, ih hxs⟩
        intro b hb
        rcases List.mem_cons.mp ((readyInsert_perm t xs).mem_iff.mp hb) with h | h
        · rw [h]; omega
        · exact hx b h

theorem foldl_readyInsert_pairwise (ts acc : List Task) (hacc : sortedByPriority acc) :
    sortedByPriority (ts.foldl (fun a t => readyInsert t a) acc) := by
  induction ts generalizing acc with
  | nil => exact hacc
  | cons x xs ih => exact ih _ (readyInsert_pairwise x acc hacc)

theorem readyInsert_filter_fifo (t : Task) (l : List Task) (hs : sortedByPriority l) :
    (readyInsert t l).filter (fun u => u.priority == t.priority) =
      l.filter (fun u => u.priority == t.priority) ++ [t] := by
  induction l with
  | nil => simp [readyInsert]
  | cons x xs ih =>
      rcases List.pairwise_cons.mp hs with ⟨hx, hxs⟩
      rw [readyInsert]
      by_cases hlt : t.priority < x.priority
      · rw [if_pos hlt]
        have hxf : (x :: xs).filter (fun u => u.priority == t.priority) = [] := by
          rw [List.filter_eq_nil_iff]
          intro u hu
          rcases List.mem_cons.mp hu with h | h
          · rw [h]; simp; omega
          · have := hx u h; simp; omega
        simp [List.filter_cons, hxf]
      · rw [if_neg hlt]
        simp only [List.filter_cons, ih hxs]
        split <;> simp

/-! The public TaskQueue operations as a state machine, used to show that a
task whose waketime lies in the future is never handed to a worker before
that waketime (unless an explicit wake rewrites the waketime). -/

inductive TQOp where
  | opSchedule (t : Task)
  | opReschedule (t : Task)
  | opWake (taskId now : Nat)
  | opFetch (tv : Nat)

/-- One public TaskQueue entry point (src/src/taskqueue.cc: schedule,
reschedule, wake, fetchNextTask).  A schedule that throws the MB-23797
logic error leaves the queue unchanged (the throw happens before the
push).  A fetch emits the popped task stamped with the fetch time. -/
def TaskQueue.applyOp (q : TaskQueue) : TQOp → TaskQueue × Option (Nat × Task)
  | TQOp.opSchedule t =>
      match q.schedule t with
      | Except.ok r => (r.1, none)
      | Except.error _ => (q, none)
  | TQOp.opReschedule t => ({ q with futureQueue := futureInsert t q.futureQueue }, none)
  | TQOp.opWake taskId now => ((q.wake taskId now).1, none)
  | TQOp.opFetch tv =>
      let r := q.fetchNextTask tv
      (r.1, Option.map (fun t => (tv, t)) r.2.1)

/-- Runs a list of operations, collecting every task returned by a fetch
together with the fetch time. -/
def runOps (q : TaskQueue) : List TQOp → List (Nat × Task)
  | [] => []
  | op :: ops => (q.applyOp op).2.toList ++ runOps (q.applyOp op).1 ops

/-- Timestamp carried by an operation: wakes and fetches read the clock. -/
def opTime : TQOp → Option Nat
  | TQOp.opWake _ now => some now
  | TQOp.opFetch tv => some tv
  | _ => none

/-- The operation timestamps never go backwards (the clock is monotone). -/
def opsMonotone : Nat → List TQOp → Bool
  | _, [] => true
  | t0, op :: ops =>
      match opTime op with
      | some t => decide (t0 ≤ t) && opsMonotone t ops
      | none => opsMonotone t0 ops

/-- State invariant at clock value tnow: every readyQueue entry is already
due, and the pendingQueue is empty (nothing in src/ ever adds to it). -/
def readyBounded (tnow : Nat) (q : TaskQueue) : Prop :=
  (∀ t ∈ q.readyQueue, t.waketime ≤ tnow) ∧ q.pendingQueue = []

theorem moveLoop_ready_bound (tv : Nat) (fs : List Task) (ready : List Task) (n : Nat)
    (h : ∀ t ∈ ready, t.waketime ≤ tv) :
    ∀ t ∈ (moveLoop tv fs ready n).2.1, t.waketime ≤ tv := by
  induction fs generalizing ready n with
  | nil => simpa [moveLoop] using h
  | cons x xs ih =>
      rw [moveLoop]
      by_cases hx : x.waketime ≤ tv
      · rw [if_pos hx]
        refine ih (readyInsert x ready) (n + 1) ?_
        intro t ht
        rcases List.mem_cons.mp ((readyInsert_perm x ready).mem_iff.mp ht) with h1 | h1
        · rw [h1]; exact hx
        · exact h t h1
      · rw [if_neg hx]
        simpa using h

theorem moveReadyTasks_ready_bound (q : TaskQueue) (tv tnow : Nat) (hle : tnow ≤ tv)
    (hb : ∀ t ∈ q.readyQueue, t.waketime ≤ tnow) :
    ∀ t ∈ (q.moveReadyTasks tv).1.readyQueue, t.waketime ≤ tv := by
  cases hq : q.readyQueue with
  | cons r rs =>
      intro t ht
      simp only [TaskQueue.moveReadyTasks, hq] at ht
      exact le_trans (hb t (by rw [hq]; exact ht)) hle
  | nil =>
      intro t ht
      simp only [TaskQueue.moveReadyTasks, hq] at ht
      exact moveLoop_ready_bound tv q.futureQueue [] 0 (by intro u hu; cases hu) t ht

theorem fetch_returns_head (q : TaskQueue) (tv : Nat) (q' : TaskQueue) (t : Task) (n : Nat)
    (h : q.fetchNextTask tv = (q', some t, n)) :
    ((q.moveReadyTasks tv).1.readyQueue = t :: q'.readyQueue) ∨
    ((q.moveReadyTasks tv).1.checkPendingQueue.readyQueue = t :: q'.readyQueue) := by
  cases hr : (q.moveReadyTasks tv).1.readyQueue with
  | cons a rest =>
      by_cases hd : a.isdead = true
      · left
        simp only [TaskQueue.fetchNextTask, hr, hd, if_true] at h
        injection h with hA hB
        injection hB with hC hD
        injection hC with hE
        subst hA; subst hE
        rfl
      · right
        have hd2 : a.isdead = false := by
          cases hv : a.isdead
          · rfl
          · exact absurd hv hd
        cases hr2 : (q.moveReadyTasks tv).1.checkPendingQueue.readyQueue with
        | nil =>
            simp only [TaskQueue.fetchNextTask, hr, hd2, Bool.false_eq_true, if_false] at h
            simp only [TaskQueue.popReadyTask, hr2] at h
            injection h with hA hB
            injection hB with hC hD
            exact Option.noConfusion hC
        | cons u us =>
            simp only [TaskQueue.fetchNextTask, hr, hd2, Bool.false_eq_true, if_false] at h
            rw [popReadyTask_cons _ u us hr2] at h
            injection h with hA hB
            injection hB with hC hD
            injection hC with hE
            subst hA; subst hE
            rfl
  | nil =>
      cases hp : (q.moveReadyTasks tv).1.pendingQueue with
      | nil =>
          simp only [TaskQueue.fetchNextTask, hr, hp] at h
          injection h with hA hB
          injection hB with hC hD
          exact Option.noConfusion hC
      | cons p ps =>
          right
          cases hr2 : (q.moveReadyTasks tv).1.checkPendingQueue.readyQueue with
          | nil =>
              simp only [TaskQueue.fetchNextTask, hr, hp] at h
              simp only [TaskQueue.popReadyTask, hr2] at h
              injection h with hA hB
              injection hB with hC hD
              exact Option.noConfusion hC
          | cons u us =>
              simp only [TaskQueue.fetchNextTask, hr, hp] at h
              rw [popReadyTask_cons _ u us hr2] at h
              injection h with hA hB
              injection hB with hC hD
              injection hC with hE
              subst hA; subst hE
              rfl

theorem fetch_state_bound (q : TaskQueue) (tv : Nat) (hpend : q.pendingQueue = []) :
    (∀ u ∈ (q.fetchNextTask tv).1.readyQueue, u ∈ (q.moveReadyTasks tv).1.readyQueue) ∧
    (q.fetchNextTask tv).1.pendingQueue = [] := by
  have hp1 : (q.moveReadyTasks tv).1.pendingQueue = [] := by
    rw [moveReadyTasks_pending]; exact hpend
  have hcp : (q.moveReadyTasks tv).1.checkPendingQueue = (q.moveReadyTasks tv).1 :=
    checkPendingQueue_nil _ hp1
  cases hr : (q.moveReadyTasks tv).1.readyQueue with
  | nil =>
      simp only [TaskQueue.fetchNextTask, hr, hp1]
      exact ⟨fun u hu => hu, trivial⟩
  | cons a rest =>
      by_cases hd : a.isdead = true
      · simp only [TaskQueue.fetchNextTask, hr, hd, if_true]
        constructor
        · intro u hu
          exact List.mem_cons_of_mem a hu
        · exact hp1
      · have hd2 : a.isdead = false := by
          cases hv : a.isdead
          · rfl
          · exact absurd hv hd
        simp only [TaskQueue.fetchNextTask, hr, hd2, Bool.false_eq_true, if_false, hcp]
        rw [popReadyTask_cons _ a rest hr]
        constructor
        · intro u hu
          exact List.mem_cons_of_mem a hu
        · exact hp1

theorem fetch_returned_bound (q : TaskQueue) (tv : Nat) (hpend : q.pendingQueue = [])
    (hb : ∀ t ∈ (q.moveReadyTasks tv).1.readyQueue, t.waketime ≤ tv) :
    ∀ q' t n, q.fetchNextTask tv = (q', some t, n) → t.waketime ≤ tv := by
  intro q' t n h
  have hcp : (q.moveReadyTasks tv).1.checkPendingQueue = (q.moveReadyTasks tv).1 :=
    checkPendingQueue_nil _ (by rw [moveReadyTasks_pending]; exact hpend)
  rcases fetch_returns_head q tv q' t n h with hh | hh
  · exact hb t (by rw [hh]; exact List.mem_cons_self t _)
  · rw [hcp] at hh
    exact hb t (by rw [hh]; exact List.mem_cons_self t _)

theorem wakeAlias_waketime_cases (taskId now : Nat) (u : Task) :
    (wakeAlias taskId now u).waketime = u.waketime ∨ (wakeAlias taskId now u).waketime = now := by
  by_cases h1 : u.tid = taskId
  · by_cases h2 : u.state = TaskState.snoozed
    · right
      simp [wakeAlias, h1, h2]
    · right
      simp [wakeAlias, h1, h2]
  · left
    simp [wakeAlias, h1]

theorem wake_preserves_bound (q : TaskQueue) (tnow taskId now : Nat)
    (hb : readyBounded tnow q) (hle : tnow ≤ now) :
    readyBounded now (q.wake taskId now).1 := by
  constructor
  · intro t ht
    rcases List.mem_map.mp ht with ⟨u, hu, hut⟩
    rcases wakeAlias_waketime_cases taskId now u with h1 | h1
    · rw [← hut, h1]
      exact le_trans (hb.1 u hu) hle
    · rw [← hut, h1]
  · show q.pendingQueue.filter _ = []
    rw [hb.2]
    rfl

theorem schedule_ok_queues (q : TaskQueue) (t : Task) (r : TaskQueue × Task)
    (h : q.schedule t = Except.ok r) :
    r.1.readyQueue = q.readyQueue ∧ r.1.pendingQueue = q.pendingQueue := by
  simp only [TaskQueue.schedule] at h
  split at h
  · exact Except.noConfusion h
  · injection h with h2
    rw [← h2]
    exact ⟨rfl, rfl⟩

theorem applyOp_preserves_bound (q : TaskQueue) (tnow : Nat) (op : TQOp)
    (hb : readyBounded tnow q) (ht : ∀ u, opTime op = some u → tnow ≤ u) :
    readyBounded ((opTime op).getD tnow) (q.applyOp op).1 ∧
    (∀ p, (q.applyOp op).2 = some p → p.2.waketime ≤ p.1) := by
  cases op with
  | opSchedule t =>
      cases hs : q.schedule t with
      | ok r =>
          have hq := schedule_ok_queues q t r hs
          refine ⟨⟨?_, ?_⟩, ?_⟩
          · intro u hu
            simp only [TaskQueue.applyOp, hs] at hu
            exact hb.1 u (by rw [← hq.1]; exact hu)
          · simp only [TaskQueue.applyOp, hs]
            rw [hq.2]
            exact hb.2
          · intro p hp
            simp [TaskQueue.applyOp, hs] at hp
      | error e =>
          refine ⟨⟨?_, ?_⟩, ?_⟩
          · intro u hu
            simp only [TaskQueue.applyOp, hs] at hu
            exact hb.1 u hu
          · simp only [TaskQueue.applyOp, hs]
            exact hb.2
          · intro p hp
            simp [TaskQueue.applyOp, hs] at hp
  | opReschedule t =>
      refine ⟨⟨?_, ?_⟩, ?_⟩
      · intro u hu
        exact hb.1 u hu
      · exact hb.2
      · intro p hp
        simp [TaskQueue.applyOp] at hp
  | opWake taskId now =>
      refine ⟨?_, ?_⟩
      · exact wake_preserves_bound q tnow taskId now hb (ht now rfl)
      · intro p hp
        simp [TaskQueue.applyOp] at hp
  | opFetch tv =>
      have hle : tnow ≤ tv := ht tv rfl
      have hb1 : ∀ t ∈ (q.moveReadyTasks tv).1.readyQueue, t.waketime ≤ tv :=
        moveReadyTasks_ready_bound q tv tnow hle hb.1
      have hstate := fetch_state_bound q tv hb.2
      refine ⟨⟨?_, ?_⟩, ?_⟩
      · intro u hu
        exact hb1 u (hstate.1 u hu)
      · exact hstate.2
      · intro p hp
        simp only [TaskQueue.applyOp] at hp
        obtain ⟨t, hsome, hpt⟩ := Option.map_eq_some'.mp hp
        have hfe : q.fetchNextTask tv =
            ((q.fetchNextTask tv).1, some t, (q.fetchNextTask tv).2.2) := by
          rw [← hsome]
        have hwb := fetch_returned_bound q tv hb.2 hb1 _ t _ hfe
        rw [← hpt]
        exact hwb

theorem runOps_no_early (q : TaskQueue) (t0 : Nat) (ops : List TQOp)
    (hmono : opsMonotone t0 ops = true) (hb : readyBounded t0 q) :
    ∀ p ∈ runOps q ops, p.2.waketime ≤ p.1 := by
  induction ops generalizing q t0 with
  | nil => intro p hp; simp [runOps] at hp
  | cons op ops ih =>
      intro p hp
      rw [runOps] at hp
      have hnext : ∀ u, opTime op = some u → t0 ≤ u := by
        intro u hu
        rw [opsMonotone, hu, Bool.and_eq_true] at hmono
        exact of_decide_eq_true hmono.1
      have happ := applyOp_preserves_bound q t0 op hb hnext
      rcases List.mem_append.mp hp with h | h
      · have hsome : (q.applyOp op).2 = some p := by
          cases hv : (q.applyOp op).2 with
          | none => rw [hv] at h; cases h
          | some v =>
              rw [hv] at h
              simp only [Option.toList_some, List.mem_singleton] at h
              rw [h]
        exact happ.2 p hsome
      · have hmono2 : opsMonotone ((opTime op).getD t0) ops = true := by
          rw [opsMonotone] at hmono
          cases hot : opTime op with
          | none =>
              rw [hot] at hmono
              simpa [hot] using hmono
          | some u =>
              rw [hot, Bool.and_eq_true] at hmono
              simp only [hot, Option.getD_some]
              exact hmono.2
        exact ih (q.applyOp op).1 ((opTime op).getD t0) hmono2 happ.1 p h

/-- C4 counterexample: a task scheduled with waketime 100 is returned by a
fetch at time 6 (before its scheduled waketime) because an intervening
TaskQueue::wake rewrote its waketime to 5 — the claim holds only for tasks
that are not woken in between. -/
theorem scheduled_waketime_counterexample :
    opsMonotone 0
        [TQOp.opSchedule ⟨1, TaskTypeId.otherTask 0, 2, 100, TaskState.running⟩,
         TQOp.opWake 1 5, TQOp.opFetch 6] = true ∧
    runOps TaskQueue.empty
        [TQOp.opSchedule ⟨1, TaskTypeId.otherTask 0, 2, 100, TaskState.running⟩,
         TQOp.opWake 1 5, TQOp.opFetch 6] =
      [(6, ⟨1, TaskTypeId.otherTask 0, 2, 5, TaskState.running⟩)] ∧
    (6 : Nat) < 100 := by
  decide

/-- C4 (amended): over any monotone-time run of the public TaskQueue
operations, a task returned by a fetch at time tv has its current waketime
≤ tv — so a task scheduled with waketime t1 never runs before t1 unless an
explicit wake rewrote its waketime; among ready tasks a higher-priority
(numerically smaller) task is popped before every remaining lower-priority
one; and the readyQueue insertion keeps FIFO order among tasks of equal
priority. -/
theorem fetch_order_spec :
    (∀ (q : TaskQueue) (t0 : Nat) (ops : List TQOp),
        opsMonotone t0 ops = true → readyBounded t0 q →
        ∀ p ∈ runOps q ops, p.2.waketime ≤ p.1) ∧
    (∀ (q : TaskQueue) (tv : Nat) (q' : TaskQueue) (t : Task) (n : Nat),
        sortedByPriority q.readyQueue →
        q.fetchNextTask tv = (q', some t, n) →
        ∀ u ∈ q'.readyQueue, t.priority ≤ u.priority) ∧
    (∀ (t : Task) (l : List Task), sortedByPriority l →
        (readyInsert t l).filter (fun u => u.priority == t.priority) =
          l.filter (fun u => u.priority == t.priority) ++ [t]) := by
  refine ⟨runOps_no_early, ?_, readyInsert_filter_fifo⟩
  intro q tv q' t n hs h
  have hq1 : sortedByPriority (q.moveReadyTasks tv).1.readyQueue := by
    cases hq : q.readyQueue with
    | cons r rs =>
        have he : (q.moveReadyTasks tv).1.readyQueue = q.readyQueue := by
          simp [TaskQueue.moveReadyTasks, hq]
        rw [he]
        exact hs
    | nil =>
        have he : (q.moveReadyTasks tv).1.readyQueue =
            (q.futureQueue.takeWhile (isDue tv)).foldl (fun a t => readyInsert t a) [] := by
          simp [TaskQueue.moveReadyTasks, hq, moveLoop_eq]
        rw [he]
        exact foldl_readyInsert_pairwise _ [] List.Pairwise.nil
  have hq2 : sortedByPriority (q.moveReadyTasks tv).1.checkPendingQueue.readyQueue := by
    cases hp : (q.moveReadyTasks tv).1.pendingQueue with
    | nil => rw [checkPendingQueue_nil _ hp]; exact hq1
    | cons p ps =>
        rw [checkPendingQueue_cons _ p ps hp]
        exact readyInsert_pairwise p _ hq1
  rcases fetch_returns_head q tv q' t n h with hh | hh
  · rw [hh] at hq1
    exact fun u hu => (List.pairwise_cons.mp hq1).1 u hu
  · rw [hh] at hq2
    exact fun u hu => (List.pairwise_cons.mp hq2).1 u hu

/-- Witness for C4 (amended): in the run that schedules a task with
waketime 2 and fetches at time 5, the returned task's waketime 2 is ≤ the
fetch time 5. -/
theorem fetch_order_spec_witness :
    ((5 : Nat), (⟨1, TaskTypeId.otherTask 0, 1, 2, TaskState.running⟩ : Task)).2.waketime ≤
      ((5 : Nat), (⟨1, TaskTypeId.otherTask 0, 1, 2, TaskState.running⟩ : Task)).1 :=
  fetch_order_spec.1 TaskQueue.empty 0
    [TQOp.opSchedule ⟨1, TaskTypeId.otherTask 0, 1, 2, TaskState.running⟩, TQOp.opFetch 5]
    (by decide) ⟨by simp [TaskQueue.empty], rfl⟩
    (5, ⟨1, TaskTypeId.otherTask 0, 1, 2, TaskState.running⟩) (by decide)

/-! ### Degraded-mode status mapping (claim C6,
EventuallyPersistentEngine in src/unnamed/part_001) -/

/-- ENGINE_ERROR_CODE, restricted to the statuses the wrappers inspect. -/
inductive EngineErrorCode where
  | success
  | keyEnoent
  | notMyVbucket
  | tmpfail
  | otherCode (n : Nat)
deriving DecidableEq

/-- EventuallyPersistentEngine::isDegradedMode (src/unnamed/part_001:790):
`kvBucket->isWarmingUp() || !trafficEnabled.load()`. -/
def isDegradedMode (warmingUp trafficEnabled : Bool) : Bool :=
  warmingUp || !trafficEnabled

/-- EventuallyPersistentEngine::itemDelete (src/unnamed/part_001:386-409):
the underlying KVBucket::deleteItem result is a parameter (its
implementation is not under src/).  Returns the status given to the client
and the updated numOpsDelete counter. -/
def itemDelete (ret : EngineErrorCode) (degraded : Bool) (numOpsDelete : Nat) :
    EngineErrorCode × Nat :=
  if ret = EngineErrorCode.keyEnoent ∨ ret = EngineErrorCode.notMyVbucket then
    if degraded then (EngineErrorCode.tmpfail, numOpsDelete) else (ret, numOpsDelete)
  else if ret = EngineErrorCode.success then (ret, numOpsDelete + 1)
  else (ret, numOpsDelete)

/-- EventuallyPersistentEngine::get (src/unnamed/part_001:418-440): the
underlying KVBucket::get status is a parameter; Success passes through (the
item is handed out), KeyNotFound/NotMyVbucket become TempFailure in
degraded mode, and everything else passes through. -/
def engineGet (ret : EngineErrorCode) (degraded : Bool) : EngineErrorCode :=
  if ret = EngineErrorCode.success then ret
  else if ret = EngineErrorCode.keyEnoent ∨ ret = EngineErrorCode.notMyVbucket then
    if degraded then EngineErrorCode.tmpfail else ret
  else ret

/-- C6 counterexample: a delete whose underlying status is Success, issued
while the engine is degraded (warming up, traffic enabled), returns Success
to the client — not TempFailure — and is counted as a completed delete. -/
theorem itemDelete_degraded_counterexample :
    itemDelete EngineErrorCode.success (isDegradedMode true true) 0 =
      (EngineErrorCode.success, 1) ∧
    EngineErrorCode.success ≠ EngineErrorCode.tmpfail ∧
    isDegradedMode true true = true := by
  decide

/-- C6 (amended): in degraded mode (warming up or traffic disabled) the
delete and get wrappers convert exactly the underlying KeyNotFound and
NotMyVbucket statuses into TempFailure; every other underlying status
(Success included) is returned unchanged, and outside degraded mode every
status passes through. -/
theorem degraded_mode_mapping (ret : EngineErrorCode) (n : Nat) (w te : Bool) :
    (isDegradedMode w te = true →
      ((ret = EngineErrorCode.keyEnoent ∨ ret = EngineErrorCode.notMyVbucket) →
        (itemDelete ret (isDegradedMode w te) n).1 = EngineErrorCode.tmpfail ∧
        engineGet ret (isDegradedMode w te) = EngineErrorCode.tmpfail) ∧
      (ret ≠ EngineErrorCode.keyEnoent → ret ≠ EngineErrorCode.notMyVbucket →
        (itemDelete ret (isDegradedMode w te) n).1 = ret ∧
        engineGet ret (isDegradedMode w te) = ret)) ∧
    (isDegradedMode w te = false →
      (itemDelete ret (isDegradedMode w te) n).1 = ret ∧
      engineGet ret (isDegradedMode w te) = ret) := by
  constructor
  · intro hdeg
    constructor
    · intro hc
      rcases hc with hc | hc <;>
        simp [itemDelete, engineGet, hc, hdeg]
    · intro h1 h2
      by_cases hsucc : ret = EngineErrorCode.success
      · simp [itemDelete, engineGet, hsucc]
      · simp [itemDelete, engineGet, h1, h2, hsucc]
  · intro hdeg
    rw [hdeg]
    by_cases h1 : ret = EngineErrorCode.keyEnoent ∨ ret = EngineErrorCode.notMyVbucket
    · rcases h1 with h1 | h1 <;> simp [itemDelete, engineGet, h1]
    · push_neg at h1
      by_cases hsucc : ret = EngineErrorCode.success
      · simp [itemDelete, engineGet, hsucc]
      · simp [itemDelete, engineGet, h1.1, h1.2, hsucc]

/-- Witness for C6 (amended): a degraded-mode delete of a missing key
(underlying KeyNotFound) returns TempFailure. -/
theorem degraded_mode_mapping_witness :
    (itemDelete EngineErrorCode.keyEnoent (isDegradedMode true false) 0).1 =
      EngineErrorCode.tmpfail ∧
    engineGet EngineErrorCode.keyEnoent (isDegradedMode true false) =
      EngineErrorCode.tmpfail :=
  ((degraded_mode_mapping EngineErrorCode.keyEnoent 0 true false).1 rfl).1 (Or.inl rfl)

/-! ### HashTable counter decrement CAS loops (claim C7,
src/src/taskqueue.cc:550-584) -/

/-- The decrement CAS loop shared by HashTable::decrNumItems,
decrNumTotalItems and decrNumNonResidentItems: `count = load(); if (count
== 0) break; while (!compare_exchange_strong(count, count - 1))`.
Concurrency is modelled by an interference schedule: entry i is the
combined write other threads perform between this thread's load and its
compare_exchange_strong on attempt i; a failed CAS retries with the fresh
value, and once the schedule is exhausted no further interference occurs.
Returns the final counter value and whether this call decremented it. -/
def decrCounter : Nat → List (Nat → Nat) → Nat × Bool
  | v, [] => if v = 0 then (v, false) else (v - 1, true)
  | v, f :: fs =>
      if v = 0 then (v, false)
      else
        let v2 := f v
        if v2 = v then (v2 - 1, true) else decrCounter v2 fs

/-- HashTable::decrNumItems (src/src/taskqueue.cc:550). -/
def decrNumItems : Nat → List (Nat → Nat) → Nat × Bool := decrCounter

/-- HashTable::decrNumTotalItems (src/src/taskqueue.cc:562). -/
def decrNumTotalItems : Nat → List (Nat → Nat) → Nat × Bool := decrCounter

/-- HashTable::decrNumNonResidentItems (src/src/taskqueue.cc:574). -/
def decrNumNonResidentItems : Nat → List (Nat → Nat) → Nat × Bool := decrCounter

/-- C7: each of the three counter decrements commits one atomic decrement:
after some number k of interfered retries the loop either observed the live
counter value 0 and left it at 0 without decrementing, or atomically
replaced the observed value c > 0 by c - 1; the counter never wraps below
zero.  In particular an uncontended decrement at 0 stays at 0, and at v > 0
yields v - 1. -/
theorem decrCounter_commits (v : Nat) (fs : List (Nat → Nat)) :
    (∃ k, k ≤ fs.length ∧
      (((fs.take k).foldl (fun a f => f a) v = 0 ∧ decrNumItems v fs = (0, false)) ∨
       (0 < (fs.take k).foldl (fun a f => f a) v ∧
         decrNumItems v fs = ((fs.take k).foldl (fun a f => f a) v - 1, true)))) ∧
    decrNumItems 0 fs = (0, false) ∧
    (0 < v → decrNumItems v [] = (v - 1, true)) ∧
    decrNumTotalItems v fs = decrNumItems v fs ∧
    decrNumNonResidentItems v fs = decrNumItems v fs := by
  refine ⟨?_, ?_, ?_, rfl, rfl⟩
  · show ∃ k, k ≤ fs.length ∧
      (((fs.take k).foldl (fun a f => f a) v = 0 ∧ decrCounter v fs = (0, false)) ∨
       (0 < (fs.take k).foldl (fun a f => f a) v ∧
         decrCounter v fs = ((fs.take k).foldl (fun a f => f a) v - 1, true)))
    induction fs generalizing v with
    | nil =>
        refine ⟨0, Nat.le_refl 0, ?_⟩
        by_cases hv : v = 0
        · left
          exact ⟨hv, by simp [decrCounter, hv]⟩
        · right
          exact ⟨Nat.pos_of_ne_zero hv, by simp [decrCounter, hv]⟩
    | cons f fs ih =>
        by_cases hv : v = 0
        · refine ⟨0, Nat.zero_le _, Or.inl ⟨hv, ?_⟩⟩
          simp [decrCounter, hv]
        · by_cases hcas : f v = v
          · refine ⟨1, by simp, Or.inr ⟨?_, ?_⟩⟩
            · simp only [List.take_succ_cons, List.take_zero, List.foldl_cons, List.foldl_nil]
              rw [hcas]
              exact Nat.pos_of_ne_zero hv
            · simp only [List.take_succ_cons, List.take_zero, List.foldl_cons, List.foldl_nil]
              rw [decrCounter, if_neg hv, hcas]
              simp
          · obtain ⟨k, hk, hor⟩ := ih (f v)
            refine ⟨k + 1, by simpa using Nat.succ_le_succ hk, ?_⟩
            have hred : decrCounter v (f :: fs) = decrCounter (f v) fs := by
              rw [decrCounter, if_neg hv]
              simp [hcas]
            simpa [List.take_succ_cons, List.foldl_cons, hred] using hor
  · cases fs with
    | nil => simp [decrNumItems, decrCounter]
    | cons f fs => simp [decrNumItems, decrCounter]
  · intro hv
    simp [decrNumItems, decrCounter, Nat.ne_of_gt hv]

/-- Witness for C7: an uncontended decrement of a counter at 3 yields 2. -/
theorem decrCounter_commits_witness :
    decrNumItems 3 [] = (2, true) :=
  (decrCounter_commits 3 []).2.2.1 (by decide)

/-! ### BgFetcher::run re-queueing of unborn vbuckets (claim C8,
src/src/bgfetcher.cc:106-153) -/

/-- What BgFetcher::run observes about one vbucket: whether its on-disk
file is not yet created (VBucket::isBucketCreation) and how many bg-fetch
items it holds (vb->getBGFetchItems().size()). -/
structure VBInfo where
  isBucketCreation : Bool
  numItems : Nat
deriving DecidableEq

/-- The BgFetcher state touched by run: the pendingVbs set and the
pendingFetch flag. -/
structure BgFetcherState where
  pendingVbs : List Nat
  pendingFetch : Bool
deriving DecidableEq

/-- One iteration of the vbucket loop in BgFetcher::run
(src/src/bgfetcher.cc:118-137): a missing vbucket is skipped; a vbucket
whose file is not yet created is re-inserted into pendingVbs and re-sets
pendingFetch (continue — no fetch); otherwise a getMulti fetch is issued
when there are items.  The second component collects the fetched vbuckets. -/
def bgRunStep (shard : Nat → Option VBInfo) (acc : BgFetcherState × List Nat) (vbId : Nat) :
    BgFetcherState × List Nat :=
  (shard vbId).elim acc (fun vb =>
    if vb.isBucketCreation then (⟨acc.1.pendingVbs.insert vbId, true⟩, acc.2)
    else if 0 < vb.numItems then (acc.1, acc.2 ++ [vbId])
    else acc)

theorem bgRunStep_eq_none (shard : Nat → Option VBInfo) (acc : BgFetcherState × List Nat)
    (x : Nat) (hx : shard x = none) : bgRunStep shard acc x = acc := by
  simp [bgRunStep, hx]

theorem bgRunStep_eq_creation (shard : Nat → Option VBInfo) (acc : BgFetcherState × List Nat)
    (x : Nat) (vb : VBInfo) (hx : shard x = some vb) (hcr : vb.isBucketCreation = true) :
    bgRunStep shard acc x = (⟨acc.1.pendingVbs.insert x, true⟩, acc.2) := by
  simp [bgRunStep, hx, hcr]

theorem bgRunStep_eq_fetch (shard : Nat → Option VBInfo) (acc : BgFetcherState × List Nat)
    (x : Nat) (vb : VBInfo) (hx : shard x = some vb) (hcr : vb.isBucketCreation = false)
    (hn : 0 < vb.numItems) :
    bgRunStep shard acc x = (acc.1, acc.2 ++ [x]) := by
  simp [bgRunStep, hx, hcr, hn]

theorem bgRunStep_eq_skip (shard : Nat → Option VBInfo) (acc : BgFetcherState × List Nat)
    (x : Nat) (vb : VBInfo) (hx : shard x = some vb) (hcr : vb.isBucketCreation = false)
    (hn : ¬ 0 < vb.numItems) :
    bgRunStep shard acc x = acc := by
  simp [bgRunStep, hx, hcr, hn]

/-- BgFetcher::run (src/src/bgfetcher.cc:106-153): clears pendingFetch,
snapshots and clears pendingVbs under the queue mutex, then processes every
snapshotted vbucket.  Returns the new state and the vbuckets for which a
getMulti fetch was issued (the snooze bookkeeping at the end does not touch
this state). -/
def bgRun (s : BgFetcherState) (shard : Nat → Option VBInfo) : BgFetcherState × List Nat :=
  s.pendingVbs.foldl (bgRunStep shard) (⟨[], false⟩, [])

theorem bgRunStep_mono (shard : Nat → Option VBInfo) (acc : BgFetcherState × List Nat)
    (x vbId : Nat) (hmem : vbId ∈ acc.1.pendingVbs) (hf : acc.1.pendingFetch = true) :
    vbId ∈ (bgRunStep shard acc x).1.pendingVbs ∧
    (bgRunStep shard acc x).1.pendingFetch = true := by
  cases hx : shard x with
  | none =>
      rw [bgRunStep_eq_none shard acc x hx]
      exact ⟨hmem, hf⟩
  | some vb =>
      by_cases hcr : vb.isBucketCreation = true
      · rw [bgRunStep_eq_creation shard acc x vb hx hcr]
        exact ⟨List.mem_insert_of_mem hmem, rfl⟩
      · have hcr2 : vb.isBucketCreation = false := by
          cases hv : vb.isBucketCreation
          · rfl
          · exact absurd hv hcr
        by_cases hn : 0 < vb.numItems
        · rw [bgRunStep_eq_fetch shard acc x vb hx hcr2 hn]
          exact ⟨hmem, hf⟩
        · rw [bgRunStep_eq_skip shard acc x vb hx hcr2 hn]
          exact ⟨hmem, hf⟩

theorem bgRunStep_not_fetched (shard : Nat → Option VBInfo)
    (acc : BgFetcherState × List Nat) (x vbId : Nat) (vb : VBInfo)
    (hvb : shard vbId = some vb) (hcr : vb.isBucketCreation = true)
    (hnf : vbId ∉ acc.2) : vbId ∉ (bgRunStep shard acc x).2 := by
  cases hx : shard x with
  | none =>
      rw [bgRunStep_eq_none shard acc x hx]
      exact hnf
  | some u =>
      by_cases hucr : u.isBucketCreation = true
      · rw [bgRunStep_eq_creation shard acc x u hx hucr]
        exact hnf
      · have hucr2 : u.isBucketCreation = false := by
          cases hv : u.isBucketCreation
          · rfl
          · exact absurd hv hucr
        by_cases hn : 0 < u.numItems
        · rw [bgRunStep_eq_fetch shard acc x u hx hucr2 hn]
          intro hcontra
          rcases List.mem_append.mp hcontra with hmem | hmem
          · exact hnf hmem
          · have hxeq : vbId = x := List.mem_singleton.mp hmem
            rw [← hxeq, hvb] at hx
            injection hx with hx
            rw [← hx] at hucr
            exact hucr hcr
        · rw [bgRunStep_eq_skip shard acc x u hx hucr2 hn]
          exact hnf

theorem bgFold_creation (shard : Nat → Option VBInfo) (vbId : Nat) (vb : VBInfo)
    (hvb : shard vbId = some vb) (hcr : vb.isBucketCreation = true) :
    ∀ (l : List Nat) (acc : BgFetcherState × List Nat),
      vbId ∉ acc.2 →
      (vbId ∈ l ∨ (vbId ∈ acc.1.pendingVbs ∧ acc.1.pendingFetch = true)) →
      vbId ∈ (l.foldl (bgRunStep shard) acc).1.pendingVbs ∧
      (l.foldl (bgRunStep shard) acc).1.pendingFetch = true ∧
      vbId ∉ (l.foldl (bgRunStep shard) acc).2 := by
  intro l
  induction l with
  | nil =>
      intro acc hnf hin
      rcases hin with h | h
      · cases h
      · exact ⟨h.1, h.2, hnf⟩
  | cons x xs ih =>
      intro acc hnf hin
      simp only [List.foldl_cons]
      refine ih (bgRunStep shard acc x) (bgRunStep_not_fetched shard acc x vbId vb hvb hcr hnf) ?_
      rcases hin with h | h
      · rcases List.mem_cons.mp h with hx | hx
        · right
          rw [← hx, bgRunStep_eq_creation shard acc vbId vb hvb hcr]
          exact ⟨List.mem_insert_self _ _, rfl⟩
        · left
          exact hx
      · right
        exact bgRunStep_mono shard acc x vbId h.1 h.2

/-- C8: in every BgFetcher::run pass, a pending vbucket whose on-disk file
is not yet created is re-inserted into pendingVbs, the pendingFetch flag is
re-set to true, and no getMulti fetch is issued for it in that pass. -/
theorem bgRun_requeues_creation (s : BgFetcherState) (shard : Nat → Option VBInfo)
    (vbId : Nat) (vb : VBInfo)
    (hmem : vbId ∈ s.pendingVbs) (hvb : shard vbId = some vb)
    (hcr : vb.isBucketCreation = true) :
    vbId ∈ (bgRun s shard).1.pendingVbs ∧
    (bgRun s shard).1.pendingFetch = true ∧
    vbId ∉ (bgRun s shard).2 :=
  bgFold_creation shard vbId vb hvb hcr s.pendingVbs (⟨[], false⟩, [])
    (by intro hx; cases hx) (Or.inl hmem)

/-- Witness for C8: vbucket 4 is pending and its file is not yet created;
after the run pass it is still pending, the flag is set, and it was not
fetched. -/
theorem bgRun_requeues_creation_witness :
    4 ∈ (bgRun ⟨[4], false⟩ (fun i => if i = 4 then some ⟨true, 2⟩ else none)).1.pendingVbs ∧
    (bgRun ⟨[4], false⟩ (fun i => if i = 4 then some ⟨true, 2⟩ else none)).1.pendingFetch = true ∧
    4 ∉ (bgRun ⟨[4], false⟩ (fun i => if i = 4 then some ⟨true, 2⟩ else none)).2 :=
  bgRun_requeues_creation ⟨[4], false⟩ (fun i => if i = 4 then some ⟨true, 2⟩ else none)
    4 ⟨true, 2⟩ (by decide) rfl rfl

/-! ### HashTable::hashChainRemoveFirst (claim C9,
src/src/taskqueue.cc:990-1013) -/

/-- The search loop of hashChainRemoveFirst: `curr` holds element `x`; the
list is its next-chain.  The first next element satisfying p is spliced
out; at the end of the chain nothing is removed. -/
def hashChainLoop {α : Type} (p : α → Bool) : α → List α → Option α × List α
  | x, [] => (none, [x])
  | x, y :: ys =>
      if p y then (some y, x :: ys)
      else
        let r := hashChainLoop p y ys
        (r.1, x :: r.2)

/-- HashTable::hashChainRemoveFirst (src/src/taskqueue.cc:990): removes and
returns the first chain element satisfying p, or returns null and leaves
the chain alone.  The chain is modelled as the list of its elements; the
head test is the `p(chain.get())` case. -/
def hashChainRemoveFirst {α : Type} (p : α → Bool) : List α → Option α × List α
  | [] => (none, [])
  | x :: xs => if p x then (some x, xs) else hashChainLoop p x xs

theorem hashChainLoop_eq {α : Type} (p : α → Bool) (x : α) (xs : List α) :
    hashChainLoop p x xs = (xs.find? p, x :: xs.eraseP p) := by
  induction xs generalizing x with
  | nil => simp [hashChainLoop]
  | cons y ys ih =>
      rw [hashChainLoop]
      by_cases hy : p y
      · rw [if_pos hy]
        simp [List.find?_cons, hy, List.eraseP_cons]
      · rw [if_neg hy]
        have hyb : p y = false := by
          cases hv : p y
          · rfl
          · exact absurd hv hy
        rw [ih y]
        simp [List.find?_cons, hyb, List.eraseP_cons]

/-- C9: for every non-empty StoredValue chain, hashChainRemoveFirst returns
the first element (in chain order) satisfying the predicate and the chain
with exactly that element spliced out, order preserved; when no element
matches it returns null and the chain is unchanged.  `List.find?` and
`List.eraseP` are precisely that specification. -/
theorem hashChainRemoveFirst_spec {α : Type} (p : α → Bool) (l : List α) (hne : l ≠ []) :
    hashChainRemoveFirst p l = (l.find? p, l.eraseP p) := by
  cases l with
  | nil => exact absurd rfl hne
  | cons x xs =>
      rw [hashChainRemoveFirst]
      by_cases hx : p x
      · rw [if_pos hx]
        simp [List.find?_cons, hx, List.eraseP_cons]
      · rw [if_neg hx]
        have hxb : p x = false := by
          cases hv : p x
          · rfl
          · exact absurd hv hx
        rw [hashChainLoop_eq]
        simp [List.find?_cons, hxb, List.eraseP_cons]

/-- Witness for C9: removing the first even element of [1, 2, 3] yields 2
and the chain [1, 3]. -/
theorem hashChainRemoveFirst_spec_witness :
    hashChainRemoveFirst (fun n : Nat => n % 2 == 0) [1, 2, 3] = (some 2, [1, 3]) :=
  (hashChainRemoveFirst_spec (fun n : Nat => n % 2 == 0) [1, 2, 3] (by decide)).trans
    (by decide)

/-! ### HashTable::getLockedBucketForHash (claim C10,
src/src/taskqueue.cc:745-757) -/

/-- HashTable::getBucketForHash (src/src/taskqueue.cc:965):
`abs(h % (int)size)`; C++ `%` on int is truncated division, i.e. Int.tmod. -/
def getBucketForHash (h : Int) (size : Nat) : Nat :=
  (Int.tmod h (Int.ofNat size)).natAbs

/-- HashTable::mutexForBucket (src/src/taskqueue.cc:969): throws when the
table is not active, else the stripe index bucket_num % n_locks. -/
def mutexForBucket (active : Bool) (nLocks : Nat) (bucket : Nat) : Except String Nat :=
  if active = false then
    Except.error "HashTable::mutexForBucket: Cannot call on a non-active object"
  else Except.ok (bucket % nLocks)

/-- HashTable::getLockedBucketForHash (src/src/taskqueue.cc:745): the retry
loop under concurrent resizes, modelled with a resize schedule: iteration i
observes activity flag `active` and table size s1 at the first
getBucketForHash and size s2 at the re-check performed after the stripe
lock is acquired; after the schedule is exhausted the table is quiescent at
`quiet = (activity, size)`.  On success returns the bucket, the stripe
mutex index held, and the table size at the successful re-check. -/
def getLockedBucketForHash (h : Int) (nLocks : Nat) :
    List (Bool × Nat × Nat) → Bool × Nat → Except String (Nat × Nat × Nat)
  | [], quiet =>
      if quiet.1 = false then
        Except.error "HashTable::getLockedBucket: Cannot call on a non-active object"
      else
        let b := getBucketForHash h quiet.2
        (mutexForBucket quiet.1 nLocks b).map (fun m => (b, m, quiet.2))
  | (active, s1, s2) :: rest, quiet =>
      if active = false then
        Except.error "HashTable::getLockedBucket: Cannot call on a non-active object"
      else
        let b := getBucketForHash h s1
        if b = getBucketForHash h s2 then
          (mutexForBucket active nLocks b).map (fun m => (b, m, s2))
        else getLockedBucketForHash h nLocks rest quiet

/-- C10: whenever getLockedBucketForHash returns, the mutex index held is
the stripe mutex bucket % n_locks for the bucket getBucketForHash(h)
computed against the table size current at the successful re-check (the
loop retries whenever a concurrent resize changed the mapping, so the held
lock is never for a stale bucket index), and an inactive table raises the
logic error. -/
theorem getLockedBucketForHash_spec (h : Int) (nLocks : Nat) :
    (∀ (sched : List (Bool × Nat × Nat)) (quiet : Bool × Nat) (b m s : Nat),
        getLockedBucketForHash h nLocks sched quiet = Except.ok (b, m, s) →
        b = getBucketForHash h s ∧ m = b % nLocks) ∧
    (∀ (s1 s2 : Nat) (rest : List (Bool × Nat × Nat)) (quiet : Bool × Nat),
        getLockedBucketForHash h nLocks ((false, s1, s2) :: rest) quiet =
          Except.error "HashTable::getLockedBucket: Cannot call on a non-active object") ∧
    (∀ s : Nat, getLockedBucketForHash h nLocks [] (false, s) =
        Except.error "HashTable::getLockedBucket: Cannot call on a non-active object") := by
  refine ⟨?_, ?_, ?_⟩
  · intro sched
    induction sched with
    | nil =>
        intro quiet b m s hok
        obtain ⟨qa, qs⟩ := quiet
        cases qa
        · simp [getLockedBucketForHash] at hok
        · simp [getLockedBucketForHash, mutexForBucket, Except.map] at hok
          obtain ⟨hb, hm, hs⟩ := hok
          subst hb; subst hm; subst hs
          exact ⟨rfl, rfl⟩
    | cons hd rest ih =>
        intro quiet b m s hok
        obtain ⟨active, s1, s2⟩ := hd
        cases active
        · simp [getLockedBucketForHash] at hok
        · rw [getLockedBucketForHash] at hok
          by_cases heq : getBucketForHash h s1 = getBucketForHash h s2
          · simp only [Bool.true_eq_false, if_false, if_pos heq, mutexForBucket,
              Except.map, Except.ok.injEq, Prod.mk.injEq] at hok
            obtain ⟨hb, hm, hs⟩ := hok
            subst hb; subst hm; subst hs
            exact ⟨heq, rfl⟩
          · simp only [Bool.true_eq_false, if_false, if_neg heq] at hok
            exact ih quiet b m s hok
  · intro s1 s2 rest quiet
    rw [getLockedBucketForHash]
    simp
  · intro s
    rw [getLockedBucketForHash]
    simp

/-- Witness for C10: with hash -7, 3 stripe locks and a schedule whose
re-check size is 8, the returned bucket is getBucketForHash(-7, 8) = 7 and
the mutex index is 7 % 3 = 1. -/
theorem getLockedBucketForHash_spec_witness :
    (7 : Nat) = getBucketForHash (-7) 8 ∧ (1 : Nat) = 7 % 3 :=
  (getLockedBucketForHash_spec (-7) 3).1 [(true, 10, 8)] (true, 8) 7 1 8 rfl

end EpEngine
